import Mathlib

/-!
Verification development for the retrieval/pagination core of the
mcp-searxng repository (src/unnamed/part_000 and src/src/cache.ts).

Strings of the TypeScript source are modelled as lists of characters
(`Str := List Char`).  JavaScript UTF-16 indexing nuances are outside the
modelled domain; every concrete input in this file is ASCII, where the two
notions of indexing agree.  The ECMAScript regular-expression engine and
the functions of `error-handler.js` (which is not part of the provided
sources) are platform/external capabilities and are modelled explicitly;
each such model carries a comment saying exactly what it models.
-/

abbrev Str := List Char

/-- The ECMAScript whitespace/line-terminator class, as used by
`String.prototype.trim` and by the regex class written between
`#{1,6}` and the end anchor in `/^#{1,6}\s/` (extractHeadings). -/
def jsWhitespace (c : Char) : Bool :=
  [' ', '\t', '\n', '\r', '\x0b', '\x0c'].contains c ||
    -- NBSP, OGHAM SPACE, U+2000..U+200A, LS, PS, NNBSP, MMSP, IDEOGRAPHIC
    -- SPACE, BOM
    [0x00a0, 0x1680, 0x2000, 0x2001, 0x2002, 0x2003, 0x2004, 0x2005, 0x2006,
     0x2007, 0x2008, 0x2009, 0x200a, 0x2028, 0x2029, 0x202f, 0x205f, 0x3000,
     0xfeff].contains c.toNat

/-- JavaScript `s.trim()`. -/
def trimJS (s : Str) : Str :=
  ((s.dropWhile jsWhitespace).reverse.dropWhile jsWhitespace).reverse

/-- JavaScript `s.split('\n')` (source line 38 and line 102). -/
def splitNL : Str → List Str
  | [] => [[]]
  | '\n' :: rest => [] :: splitNL rest
  | c :: rest =>
    match splitNL rest with
    | [] => [[c]]
    | p :: ps => (c :: p) :: ps

/-- JavaScript `s.split('\n\n')` (source line 73): split on left-to-right
non-overlapping occurrences of the two-character separator. -/
def splitBlank : Str → List Str
  | [] => [[]]
  | '\n' :: '\n' :: rest => [] :: splitBlank rest
  | c :: rest =>
    match splitBlank rest with
    | [] => [[c]]
    | p :: ps => (c :: p) :: ps

/-- JavaScript `lines.join('\n')`. -/
def joinNL (ls : List Str) : Str := List.intercalate ['\n'] ls

/-- JavaScript `paragraphs.join('\n\n')`. -/
def joinBlank (ls : List Str) : Str := List.intercalate ['\n', '\n'] ls

/-- `applyCharacterPagination` (source lines 26-35).

```
if (startChar >= content.length) return "";
const start = Math.max(0, startChar);
const end = maxLength ? Math.min(content.length, start + maxLength) : content.length;
return content.slice(start, end);
```

`maxLength ? _ : _` is a JavaScript truthiness test, so `maxLength = 0`
takes the `content.length` branch.  `content.slice(start, end)` is
`(content.take end).drop start`. -/
def applyCharacterPagination (content : Str) (startChar : Nat) (maxLength : Option Nat) : Str :=
  if content.length ≤ startChar then []
  else
    let start := max 0 startChar
    let stop :=
      match maxLength with
      | some m => if m = 0 then content.length else min content.length (start + m)
      | none => content.length
    (content.take stop).drop start

/-!  ### Section extraction and its regular expression

`extractSection` (source lines 37-70) builds
`new RegExp(`^#{1,6}\s*.*${sectionHeading}.*$`, 'i')`.
The pattern is written in a TEMPLATE LITERAL, where the escape `\s` denotes
the plain character `s`; the compiled pattern is therefore
`^#{1,6}s*.*H.*$` (literal letter `s` repeated, not a whitespace class).
Since `s*` can match the empty string and `.*` can also match runs of `s`,
the `s*` atom is redundant for matching purposes and is dropped from the
model.  The model below gives the exact ECMAScript matching semantics of
this pattern for section strings `H` that contain no regex metacharacters
(`.test` on a `^...$` pattern is a full-string match; `.` does not match
line terminators; flag `i` folds case). -/

/-- Characters that `.` does not match in an ECMAScript regex
(LineTerminator set). -/
def dotNoMatch (c : Char) : Bool :=
  ['\n', '\r'].contains c || [0x2028, 0x2029].contains c.toNat

/-- Every character of `s` is matchable by `.`. -/
def dotOk (s : Str) : Bool := s.all (fun c => !dotNoMatch c)

/-- ASCII case folding, modelling the `i` flag on the concrete inputs of
this development. -/
def lowerChar (c : Char) : Char :=
  if 'A' ≤ c ∧ c ≤ 'Z' then Char.ofNat (c.toNat + 32) else c

/-- `X` matches (case-insensitively, as a literal) at the front of `s`. -/
def ciStarts (X s : Str) : Bool :=
  decide (X.length ≤ s.length) &&
    (X.zip s).all (fun p => lowerChar p.1 == lowerChar p.2)

/-- `s` contains `X` as a case-insensitive literal substring. -/
def containsCI (X : Str) : Str → Bool
  | [] => ciStarts X []
  | c :: tl => ciStarts X (c :: tl) || containsCI X tl

/-- Matching of the pattern tail `.*X.*$` against `s` (after the `#` run),
by direct backtracking semantics: either `X` matches here and the remainder
is `.`-matchable, or the leading character is consumed by the first `.*`. -/
def tailTest (X : Str) : Str → Bool
  | [] => ciStarts X []
  | c :: tl =>
    (ciStarts X (c :: tl) && dotOk ((c :: tl).drop X.length)) ||
      (!dotNoMatch c && tailTest X tl)

/-- `List.replicate k '#'` — the `#` run of the pattern. -/
def hashes (k : Nat) : Str := List.replicate k '#'

/-- `p` is a prefix of `l` (plain recursive definition). -/
def leadsWith : Str → Str → Bool
  | [], _ => true
  | _ :: _, [] => false
  | x :: xs, y :: ys => x == y && leadsWith xs ys

/-- `sectionRegex.test(line)` (source line 47) for a metacharacter-free
section string `X`: the pattern `^#{1,6}s*.*X.*$` matches `line` iff for
some `k ∈ [1,6]` the line starts with `k` hashes and the rest matches
`.*X.*$` (the redundant `s*` is dropped, see above). -/
def sectionLineTest (X l : Str) : Bool :=
  (List.range' 1 6).any (fun k => leadsWith (hashes k) l && tailTest X (l.drop k))

/-- `line.match(/^#+/)` length: the number of leading `'#'` characters
(source lines 49 and 62). -/
def hashCount (l : Str) : Nat := (l.takeWhile (fun c => c == '#')).length

/-- `line.match(/^#+/)` is non-null: the line starts with `'#'`. -/
def startsHash (l : Str) : Bool :=
  match l with
  | [] => false
  | c :: _ => c == '#' 

/-- First index of the list satisfying `p` — translation of the search
loops at source lines 45-52 and 60-67. -/
def firstIdx (p : α → Bool) : List α → Option Nat
  | [] => none
  | a :: tl => if p a then some 0 else (firstIdx p tl).map (· + 1)

/-- Characters that are regular-expression metacharacters when
interpolated into the section pattern.  A section string free of these is
compiled by the ECMAScript RegExp constructor to a literal-match pattern. -/
def literalChar (c : Char) : Bool :=
  !(['^', '$', '\\', '.', '*', '+', '?', '(', ')', '[', ']', '{', '}', '|'].contains c)

/-- Scan for group errors that make the interpolated pattern fail to
compile: an unmatched `(` or `)` (or a trailing lone backslash) is a
compile-time SyntaxError in ECMAScript. -/
def groupScanBad : Str → Nat → Bool
  | [], d => decide (d ≠ 0)
  | '\\' :: [], _ => true
  | '\\' :: _ :: tl, d => groupScanBad tl d
  | '(' :: tl, d => groupScanBad tl (d + 1)
  | ')' :: tl, d => if d = 0 then true else groupScanBad tl (d - 1)
  | _ :: tl, d => groupScanBad tl d

/-- Result of compiling `new RegExp("^#{1,6}s*.*" ++ X ++ ".*$", "i")`. -/
inductive RegexCompile where
  /-- `X` has no metacharacters: the pattern matches `X` literally. -/
  | literal (X : Str) : RegexCompile
  /-- the constructor throws a SyntaxError (e.g. unbalanced group). -/
  | invalid : RegexCompile
  /-- `X` uses regex features outside the modelled subset. -/
  | unsupported : RegexCompile
deriving DecidableEq, Repr

/-- Model of the ECMAScript `new RegExp` call of source line 39 on the
interpolated section string.  Metacharacter-free strings compile to the
literal matcher; strings with detectable group errors fail to compile;
all other metacharacter-bearing strings are outside the modelled subset
(no theorem in this file relies on their behaviour). -/
def compileSectionFragment (s : Str) : RegexCompile :=
  if s.all literalChar then .literal s
  else if groupScanBad s 0 then .invalid
  else .unsupported

/-- Error kinds of the pipeline's error taxonomy (spec section 7) plus the
tags needed for raw platform errors. -/
inductive ErrKind where
  | urlFormat | network | timeout | server | content | conversion | unexpected
  /-- a raw platform error supplied by the environment (e.g. an AbortError
  or a DNS failure from fetch) -/
  | external
  /-- a RegExp compile failure (SyntaxError) -/
  | regexInvalid
  /-- marker for section strings outside the modelled RegExp subset -/
  | modelUnsupported
deriving DecidableEq, Repr

/-- A thrown JavaScript error, carrying its `name` (used by the catch
clause of the source, lines 252 and 257) and its classified kind. -/
structure JsErr where
  name : Str
  kind : ErrKind
deriving DecidableEq, Repr

deriving instance DecidableEq for Except

/-- The SyntaxError thrown by an invalid RegExp construction. -/
def regexCompileError : JsErr := { name := "SyntaxError".data, kind := .regexInvalid }

/-- Marker error for section strings outside the modelled RegExp subset. -/
def modelUnsupportedError : JsErr := { name := "ModelUnsupported".data, kind := .modelUnsupported }

/-- `extractSection` (source lines 37-70).

```
const lines = markdownContent.split('\n');
const sectionRegex = new RegExp(`^#{1,6}\s*.*${sectionHeading}.*$`, 'i');
-- find first line with sectionRegex.test(line); remember its index and
-- its leading-# count (currentLevel);
if (startIndex === -1) return "";
-- find the first later line whose /^#+/ match has length <= currentLevel;
return lines.slice(startIndex, endIndex).join('\n');
```
The RegExp construction can throw, hence the `Except` result. -/
def extractSection (content X : Str) : Except JsErr Str :=
  match compileSectionFragment X with
  | .invalid => .error regexCompileError
  | .unsupported => .error modelUnsupportedError
  | .literal lit =>
    let lines := splitNL content
    match firstIdx (fun l => sectionLineTest lit l) lines with
    | none => .ok []
    | some i =>
      let lvl := hashCount (lines.getD i [])
      let stop :=
        match firstIdx (fun l => startsHash l && decide (hashCount l ≤ lvl)) (lines.drop (i + 1)) with
        | some j => i + 1 + j
        | none => lines.length
      .ok (joinNL ((lines.take stop).drop i))

/-- Digit test for the regex class `\d`. -/
def isDigit (c : Char) : Bool := '0' ≤ c ∧ c ≤ '9'

/-- `parseInt` on a digit string. -/
def digitsToNat (ds : Str) : Nat :=
  ds.foldl (fun n c => n * 10 + (c.toNat - 48)) 0

/-- Model of `range.match(/^(\d+)(?:-(\d*))?$/)` (source line 76): a
non-empty digit group, optionally followed by `-` and a (possibly empty)
digit group.  Returns the two groups on success. -/
def parseRange (r : Str) : Option (Str × Option Str) :=
  let ds := r.takeWhile isDigit
  if ds = [] then none
  else
    match r.drop ds.length with
    | [] => some (ds, none)
    | '-' :: tl => if tl.all isDigit then some (ds, some tl) else none
    | _ => none

/-- The filtered paragraph list of `extractParagraphRange` (source line 73):
`content.split('\n\n').filter(p => p.trim().length > 0)`. -/
def paragraphsOf (content : Str) : List Str :=
  (splitBlank content).filter (fun p => !(trimJS p).isEmpty)

/-- `extractParagraphRange` (source lines 72-99).

`start = parseInt(g1) - 1` with `start < 0` rejected: since `g1` is a digit
string, `start < 0` happens exactly when the parsed number is `0`. -/
def extractParagraphRange (content range : Str) : Str :=
  let ps := paragraphsOf content
  match parseRange range with
  | none => []
  | some (ds, rest) =>
    let n := digitsToNat ds
    if n = 0 then []
    else
      let i := n - 1
      if ps.length ≤ i then []
      else
        match rest with
        | none => ps.getD i []
        | some [] => joinBlank (ps.drop i)
        | some ds2 => joinBlank ((ps.take (digitsToNat ds2)).drop i)

/-- The test of `/^#{1,6}\s/` (source line 103): one to six `#` characters
followed by a whitespace-class character.  Backtracking makes this
equivalent to: the leading `#` run has length between 1 and 6 and is
followed by a whitespace character. -/
def isHeadingLine (l : Str) : Bool :=
  let m := hashCount l
  decide (1 ≤ m) && decide (m ≤ 6) &&
    (match l.drop m with
     | c :: _ => jsWhitespace c
     | [] => false)

/-- The fixed message of `extractHeadings` (source line 106). -/
def noHeadingsMsg : Str := "No headings found in the content.".data

/-- `extractHeadings` (source lines 101-110). -/
def extractHeadings (content : Str) : Str :=
  let headings := (splitNL content).filter isHeadingLine
  if headings.isEmpty then noHeadingsMsg else joinNL headings

/-- The placeholder of source line 124. -/
def sectionNotFoundMsg (s : Str) : Str :=
  "Section \"".data ++ s ++ "\" not found in the content.".data

/-- The placeholder of source line 132. -/
def invalidRangeMsg (r : Str) : Str :=
  "Paragraph range \"".data ++ r ++ "\" is invalid or out of bounds.".data

/-- `PaginationOptions` (source lines 18-24).  The field `sectionOpt`
models the source field `section` (a Lean keyword). -/
structure PaginationOptions where
  startChar : Option Nat := none
  maxLength : Option Nat := none
  sectionOpt : Option Str := none
  paragraphRange : Option Str := none
  readHeadings : Bool := false
deriving Repr

/-- The character-pagination step of `applyPaginationOptions` (source
lines 137-139): applied when `startChar !== undefined || maxLength !==
undefined`; `options.startChar` defaults to `0` inside
`applyCharacterPagination`. -/
def charStep (content : Str) (o : PaginationOptions) : Str :=
  if o.startChar.isSome || o.maxLength.isSome then
    applyCharacterPagination content (o.startChar.getD 0) o.maxLength
  else content

/-- The paragraph-range step plus everything after it (source lines
129-141).  `if (options.paragraphRange)` is a truthiness test, so the
empty string skips the step. -/
def paragraphStep (content : Str) (o : PaginationOptions) : Str :=
  match o.paragraphRange with
  | some r =>
    if r = [] then charStep content o
    else
      let res := extractParagraphRange content r
      if res = [] then invalidRangeMsg r
      else charStep res o
  | none => charStep content o

/-- `applyPaginationOptions` (source lines 112-142), decomposed into the
source's sequential early-return structure.  `if (options.section)` is a
truthiness test, so an empty section string skips section extraction.
The `Except` propagates a RegExp construction failure. -/
def applyPaginationOptions (content : Str) (o : PaginationOptions) : Except JsErr Str :=
  if o.readHeadings then .ok (extractHeadings content)
  else
    match o.sectionOpt with
    | some s =>
      if s = [] then .ok (paragraphStep content o)
      else
        match extractSection content s with
        | .error e => .error e
        | .ok r =>
          if r = [] then .ok (sectionNotFoundMsg s)
          else .ok (paragraphStep r o)
    | none => .ok (paragraphStep content o)

/-!  ### Document cache (src/src/cache.ts)

`Map<string, CacheEntry>` is modelled as an association list with the
JavaScript `Map` access semantics: `get` finds the first binding, `set`
updates an existing binding in place or appends, `delete` removes the
binding.  Timestamps (`Date.now()`) are passed in explicitly as a `now`
argument; JavaScript subtraction `now - timestamp` on the monotone clock
is modelled by truncated `Nat` subtraction (for `now < timestamp` both
yield a value `≤ ttl`, i.e. "not expired"). -/

/-- `CacheEntry` (cache.ts lines 1-5). -/
structure CacheEntry where
  htmlContent : Str
  markdownContent : Str
  timestamp : Nat
deriving DecidableEq, Repr

/-- `Map.prototype.get`. -/
def mapGet (k : Str) : List (Str × CacheEntry) → Option CacheEntry
  | [] => none
  | (k2, v) :: tl => if k = k2 then some v else mapGet k tl

/-- `Map.prototype.set`. -/
def mapSet (k : Str) (v : CacheEntry) : List (Str × CacheEntry) → List (Str × CacheEntry)
  | [] => [(k, v)]
  | (k2, v2) :: tl => if k = k2 then (k, v) :: tl else (k2, v2) :: mapSet k v tl

/-- `Map.prototype.delete`: removes the binding of `k`.  A JavaScript
`Map` cannot hold duplicate keys, so clearing every occurrence of `k`
from the association list agrees with `Map.delete` on every representable
state. -/
def mapDelete (k : Str) : List (Str × CacheEntry) → List (Str × CacheEntry)
  | [] => []
  | (k2, v2) :: tl => if k = k2 then mapDelete k tl else (k2, v2) :: mapDelete k tl

/-- `SimpleCache` (cache.ts lines 7-81): the map plus the configured TTL.
The background sweep timer is process machinery outside the per-call
state. -/
structure SimpleCache where
  entries : List (Str × CacheEntry)
  ttlMs : Nat
deriving DecidableEq, Repr

/-- `SimpleCache.get` (cache.ts lines 33-46): miss on absence; on a hit,
an entry older than the TTL is deleted and reported absent; otherwise the
entry is returned.  The returned pair is (result, cache state after the
call). -/
def SimpleCache.get (c : SimpleCache) (url : Str) (now : Nat) : Option CacheEntry × SimpleCache :=
  match mapGet url c.entries with
  | none => (none, c)
  | some e =>
    if c.ttlMs < now - e.timestamp then
      (none, { c with entries := mapDelete url c.entries })
    else (some e, c)

/-- `SimpleCache.set` (cache.ts lines 48-54). -/
def SimpleCache.set (c : SimpleCache) (url html md : Str) (now : Nat) : SimpleCache :=
  { c with entries := mapSet url { htmlContent := html, markdownContent := md, timestamp := now } c.entries }

/-!  ### Retrieval pipeline (source lines 144-270)

The platform capabilities consumed by `fetchAndConvertToMarkdown` are
collected in an `Env`: whether `new URL(url)` succeeds, the outcome of
`fetch`, the outcome of `NodeHtmlMarkdown.translate`, and the current
time.  `createProxyAgent` and `logMessage` only affect request plumbing
and diagnostics, never the returned value or the cache, and are omitted.

The functions imported from `error-handler.js` are NOT part of the
provided sources.  They are modelled from the spec (sections 4.2 and 7):
each classified failure is an `MCPSearXNGError` tagged with its kind, and
`createNetworkError` passes a cancellation (`AbortError`) through
unchanged so that the catch clause of the source (line 252) classifies it
as a timeout — the spec's "cancellation due to timeout expiry fails with
TimeoutError", while other transport failures become `NetworkError`. -/

/-- The `error.name` of every classified error thrown by the error
handler, as tested by the source at line 257. -/
def mcpErrName : Str := "MCPSearXNGError".data

/-- The `error.name` of a fetch cancellation, as tested at line 252. -/
def abortName : Str := "AbortError".data

/-- Modelled from the spec: `createURLFormatError` of error-handler.js
(spec 4.2 step 2). -/
def createURLFormatError (url : Str) : JsErr := { name := mcpErrName, kind := .urlFormat }

/-- Modelled from the spec: `createNetworkError` of error-handler.js
(spec 4.2 step 3): a timeout cancellation (AbortError) is passed through
so the pipeline classifies it as a timeout; any other transport failure
becomes the classified network error. -/
def createNetworkError (e : JsErr) (url : Str) : JsErr :=
  if e.name = abortName then e else { name := mcpErrName, kind := .network }

/-- Modelled from the spec: `createServerError` of error-handler.js
(spec 4.2 step 4). -/
def createServerError (status : Nat) (statusText body url : Str) : JsErr :=
  { name := mcpErrName, kind := .server }

/-- Modelled from the spec: `createContentError` of error-handler.js
(spec 4.2 step 5). -/
def createContentError (msg url : Str) : JsErr := { name := mcpErrName, kind := .content }

/-- Modelled from the spec: `createConversionError` of error-handler.js
(spec 4.2 step 6). -/
def createConversionError (e : JsErr) (url html : Str) : JsErr :=
  { name := mcpErrName, kind := .conversion }

/-- Modelled from the spec: `createTimeoutError` of error-handler.js
(spec 7). -/
def createTimeoutError (timeoutMs : Nat) (url : Str) : JsErr :=
  { name := mcpErrName, kind := .timeout }

/-- Modelled from the spec: `createUnexpectedError` of error-handler.js
(spec 7): wraps an unclassified failure. -/
def createUnexpectedError (e : JsErr) (url : Str) : JsErr :=
  { name := mcpErrName, kind := .unexpected }

/-- Modelled from the spec: `createEmptyContentWarning` of
error-handler.js — the descriptive degraded-success string returned when
conversion yields empty text (spec 4.2 step 7). -/
def createEmptyContentWarning (url : Str) (htmlLength : Nat) (html : Str) : Str :=
  "Warning: the document converted to empty text for URL \"".data ++ url ++ "\".".data

/-- The `response` object of the fetch capability: `ok`/`status`/
`statusText` and the (single) outcome of reading the body with
`response.text()`. -/
structure HttpResponse where
  ok : Bool
  status : Nat
  statusText : Str
  body : Except JsErr Str

/-- The platform environment of one `fetchAndConvertToMarkdown` call. -/
structure Env where
  /-- `new URL(url)` succeeds (source line 166) -/
  urlParses : Bool
  /-- outcome of `fetch(url, requestOptions)` (source line 191); a timeout
  cancellation is a rejection whose error has `name = "AbortError"` -/
  fetchResult : Except JsErr HttpResponse
  /-- `NodeHtmlMarkdown.translate` (source line 231), an external pure
  capability that may fail -/
  translate : Str → Except JsErr Str
  /-- `Date.now()` -/
  now : Nat

/-- The placeholder substituted when the body of a non-ok response cannot
be read (source line 206). -/
def bodyPlaceholder : Str := "[Could not read response body]".data

/-- The `try` block of `fetchAndConvertToMarkdown` (source lines 176-250),
starting after the cache miss and URL validation, carrying the cache state
(the `set` of line 243 happens inside the block).  A `.error` result is a
throw that the catch clause will classify. -/
def tryBody (env : Env) (c : SimpleCache) (url : Str) (o : PaginationOptions) :
    Except JsErr Str × SimpleCache :=
  match env.fetchResult with
  | .error e => (.error (createNetworkError e url), c)
  | .ok resp =>
    if !resp.ok then
      let body := match resp.body with | .ok b => b | .error _ => bodyPlaceholder
      (.error (createServerError resp.status resp.statusText body url), c)
    else
      match resp.body with
      | .error e => (.error (createContentError "Failed to read website content".data url), c)
      | .ok html =>
        if (trimJS html).isEmpty then
          (.error (createContentError "Website returned empty content.".data url), c)
        else
          match env.translate html with
          | .error e => (.error (createConversionError e url html), c)
          | .ok md =>
            if (trimJS md).isEmpty then
              (.ok (createEmptyContentWarning url html.length html), c)
            else
              let cSet := c.set url html md env.now
              (applyPaginationOptions md o, cSet)

/-- The catch clause (source lines 251-265): an `AbortError` becomes the
timeout error, an already-classified `MCPSearXNGError` is re-thrown, and
anything else is wrapped as the unexpected error. -/
def classifyCaught (e : JsErr) (timeoutMs : Nat) (url : Str) : JsErr :=
  if e.name = abortName then createTimeoutError timeoutMs url
  else if e.name = mcpErrName then e
  else createUnexpectedError e url

/-- `fetchAndConvertToMarkdown` (source lines 144-270).  The cache check
and URL validation (lines 154-170) run before the `try` block, so a throw
there — including a RegExp SyntaxError from pagination on the cache-hit
path — propagates unclassified.  The `finally` clause only clears the
timeout timer and has no modelled effect. -/
def fetchAndConvertToMarkdown (env : Env) (cache : SimpleCache) (url : Str)
    (timeoutMs : Nat) (o : PaginationOptions) : Except JsErr Str × SimpleCache :=
  match SimpleCache.get cache url env.now with
  | (some entry, cHit) => (applyPaginationOptions entry.markdownContent o, cHit)
  | (none, cMiss) =>
    if !env.urlParses then (.error (createURLFormatError url), cMiss)
    else
      match tryBody env cMiss url o with
      | (.ok r, cOut) => (.ok r, cOut)
      | (.error e, cOut) => (.error (classifyCaught e timeoutMs url), cOut)

/-!  ### Helper lemmas: lists -/

theorem firstIdx_lt_length {p : α → Bool} : ∀ {l : List α} {i : Nat},
    firstIdx p l = some i → i < l.length := by
  intro l
  induction l with
  | nil => intro i h; simp [firstIdx] at h
  | cons a tl ih =>
    intro i h
    by_cases hp : p a
    · simp [firstIdx, hp] at h
      simp only [List.length_cons]
      omega
    · simp [firstIdx, hp] at h
      obtain ⟨j, hj, rfl⟩ := h
      have := ih hj
      simp
      omega

theorem take_firstIdx (p : α → Bool) : ∀ (l : List α),
    l.take ((firstIdx p l).getD l.length) = l.takeWhile (fun a => !p a) := by
  intro l
  induction l with
  | nil => rfl
  | cons a tl ih =>
    by_cases hp : p a
    · simp [firstIdx, hp, List.takeWhile_cons]
    · simp only [firstIdx, hp, if_false, List.takeWhile_cons]
      simp only [hp, Bool.not_false, if_true]
      cases hfi : firstIdx p tl with
      | none =>
        simp only [hfi, Option.map_none, Option.getD, List.length_cons,
          List.take_succ_cons]
        rw [← ih, hfi]
        rfl
      | some j =>
        simp only [hfi, Option.map_some, Option.getD, List.take_succ_cons]
        rw [← ih, hfi]
        rfl

theorem drop_take_eq : ∀ (i n : Nat) (l : List α),
    (l.take (i + n)).drop i = (l.drop i).take n := by
  intro i
  induction i with
  | zero => intro n l; simp
  | succ i ih =>
    intro n l
    cases l with
    | nil => simp
    | cons c t =>
      have harith : i + 1 + n = (i + n) + 1 := by omega
      rw [harith]
      simp only [List.take_succ_cons, List.drop_succ_cons]
      exact ih n t

theorem drop_eq_getD_cons : ∀ (l : List α) (i : Nat) (d : α), i < l.length →
    l.drop i = l.getD i d :: l.drop (i + 1) := by
  intro l
  induction l with
  | nil => intro i d h; simp at h
  | cons c t ih =>
    intro i d h
    cases i with
    | zero => simp
    | succ i =>
      simp only [List.drop_succ_cons, List.getD_cons_succ]
      exact ih i d (by simpa using h)

theorem all_take (p : α → Bool) : ∀ (l : List α) (n : Nat),
    l.all p = true → (l.take n).all p = true := by
  intro l
  induction l with
  | nil => intro n _; simp
  | cons c t ih =>
    intro n h
    simp only [List.all_cons, Bool.and_eq_true] at h
    cases n with
    | zero => simp
    | succ n => simp [List.take_succ_cons, h.1, ih n h.2]

theorem all_drop (p : α → Bool) : ∀ (l : List α) (n : Nat),
    l.all p = true → (l.drop n).all p = true := by
  intro l
  induction l with
  | nil => intro n _; simp
  | cons c t ih =>
    intro n h
    simp only [List.all_cons, Bool.and_eq_true] at h
    cases n with
    | zero => simpa using h
    | succ n => simpa using ih n h.2

theorem takeWhile_of_all (p : α → Bool) : ∀ (l : List α),
    l.all p = true → l.takeWhile p = l := by
  intro l
  induction l with
  | nil => intro _; rfl
  | cons c t ih =>
    intro h
    simp only [List.all_cons, Bool.and_eq_true] at h
    simp [List.takeWhile_cons, h.1, ih h.2]

theorem takeWhile_app (p : α → Bool) : ∀ (l t : List α),
    l.all p = true → (l ++ t).takeWhile p = l ++ t.takeWhile p := by
  intro l t
  induction l with
  | nil => intro _; rfl
  | cons c l2 ih =>
    intro h
    simp only [List.all_cons, Bool.and_eq_true] at h
    simp [List.takeWhile_cons, h.1, ih h.2]

/-!  ### Helper lemmas: the association-list map -/

theorem mapGet_mapSet (u k : Str) (v : CacheEntry) : ∀ (m : List (Str × CacheEntry)),
    mapGet u (mapSet k v m) = if u = k then some v else mapGet u m := by
  intro m
  induction m with
  | nil => by_cases h : u = k <;> simp [mapSet, mapGet, h]
  | cons kv tl ih =>
    obtain ⟨k2, v2⟩ := kv
    by_cases hk : k = k2
    · subst hk
      by_cases hu : u = k <;> simp [mapSet, mapGet, hu]
    · by_cases hu : u = k2
      · subst hu
        have : ¬u = k := fun h => hk (by rw [← h])
        simp [mapSet, mapGet, hk, this]
      · simp [mapSet, mapGet, hk, hu, ih]

theorem mapGet_mapDelete (u k : Str) : ∀ (m : List (Str × CacheEntry)),
    mapGet u (mapDelete k m) = if u = k then none else mapGet u m := by
  intro m
  induction m with
  | nil => by_cases h : u = k <;> simp [mapDelete, mapGet, h]
  | cons kv tl ih =>
    obtain ⟨k2, v2⟩ := kv
    by_cases hk : k = k2
    · subst hk
      by_cases hu : u = k
      · subst hu
        simp [mapDelete, mapGet, ih]
      · simp [mapDelete, mapGet, hu, ih]
    · by_cases hu : u = k2
      · subst hu
        have : ¬u = k := fun h => hk (by rw [← h])
        simp [mapDelete, mapGet, hk, this]
      · simp [mapDelete, mapGet, hk, hu, ih]

/-!  ### Helper lemmas: the section regular expression -/

theorem tailTest_cons (X tl : Str) (c : Char) (h1 : dotNoMatch c = false)
    (h2 : tailTest X tl = true) : tailTest X (c :: tl) = true := by
  simp [tailTest, h1, h2]

theorem tailTest_of_drop (X : Str) : ∀ (j : Nat) (s : Str),
    ((s.take j).all fun c => !dotNoMatch c) = true →
    tailTest X (s.drop j) = true → tailTest X s = true := by
  intro j
  induction j with
  | zero => intro s _ h2; simpa using h2
  | succ j ih =>
    intro s h1 h2
    cases s with
    | nil => simpa using h2
    | cons c t =>
      simp only [List.take_succ_cons, List.all_cons, Bool.and_eq_true] at h1
      simp only [List.drop_succ_cons] at h2
      exact tailTest_cons X t c (by simpa using h1.1) (ih t h1.2 h2)

theorem tailTest_eq_containsCI (X : Str) : ∀ (s : Str), dotOk s = true →
    tailTest X s = containsCI X s := by
  intro s
  induction s with
  | nil => intro _; rfl
  | cons c tl ih =>
    intro h
    simp only [dotOk, List.all_cons, Bool.and_eq_true] at h
    have hdrop : dotOk ((c :: tl).drop X.length) = true := by
      have := all_drop (fun c2 => !dotNoMatch c2) (c :: tl) X.length
        (by simp [h.1, h.2])
      simpa [dotOk] using this
    simp only [tailTest, containsCI, hdrop, Bool.and_true, h.1, Bool.true_and,
      ih h.2]

theorem leadsWith_ex : ∀ (p l : Str), leadsWith p l = true ↔ ∃ t, l = p ++ t := by
  intro p
  induction p with
  | nil => intro l; simp [leadsWith]
  | cons x xs ih =>
    intro l
    cases l with
    | nil => simp [leadsWith]
    | cons y ys =>
      simp only [leadsWith, Bool.and_eq_true, beq_iff_eq, ih ys,
        List.cons_append, List.cons.injEq]
      constructor
      · rintro ⟨rfl, t, rfl⟩; exact ⟨t, rfl, rfl⟩
      · rintro ⟨t, rfl, rfl⟩; exact ⟨rfl, t, rfl⟩

theorem hashAux (X : Str) : ∀ (k : Nat) (l : Str), 1 ≤ k →
    leadsWith (hashes k) l = true → tailTest X (l.drop k) = true →
    startsHash l = true ∧ tailTest X (l.drop 1) = true := by
  intro k
  induction k with
  | zero => intro l h; omega
  | succ k ih =>
    intro l _ hlead htail
    cases k with
    | zero =>
      cases l with
      | nil => simp [hashes, leadsWith] at hlead
      | cons c t =>
        simp only [hashes, List.replicate, leadsWith, Bool.and_eq_true,
          beq_iff_eq] at hlead
        obtain ⟨rfl, -⟩ := hlead
        exact ⟨rfl, by simpa using htail⟩
    | succ k2 =>
      cases l with
      | nil => simp [hashes, List.replicate, leadsWith] at hlead
      | cons c t =>
        have hrep : hashes (k2 + 1 + 1) = '#' :: hashes (k2 + 1) := by
          simp [hashes, List.replicate]
        rw [hrep] at hlead
        simp only [leadsWith, Bool.and_eq_true, beq_iff_eq] at hlead
        obtain ⟨rfl, hlead2⟩ := hlead
        have hdrop : tailTest X (t.drop (k2 + 1)) = true := by
          simpa using htail
        obtain ⟨hsh, htt⟩ := ih t (by omega) hlead2 hdrop
        cases t with
        | nil => simp [startsHash] at hsh
        | cons c2 t2 =>
          simp only [startsHash, beq_iff_eq] at hsh
          subst hsh
          refine ⟨by simp [startsHash], ?_⟩
          simp only [List.drop_succ_cons, List.drop_zero] at htt ⊢
          exact tailTest_cons X t2 '#' (by decide) htt

/-- The six-way disjunction of the `#{1,6}` quantifier collapses: the
pattern matches iff the line starts with one `#` and the rest matches
`.*X.*$` (backtracking can always hand surplus `#` characters to the
first `.*`). -/
theorem sectionLineTest_eq (X l : Str) :
    sectionLineTest X l = (startsHash l && tailTest X (l.drop 1)) := by
  cases hb : (startsHash l && tailTest X (l.drop 1)) with
  | true =>
    simp only [Bool.and_eq_true] at hb
    obtain ⟨hsh, htt⟩ := hb
    cases l with
    | nil => simp [startsHash] at hsh
    | cons c t =>
      simp only [startsHash, beq_iff_eq] at hsh
      subst hsh
      simp only [sectionLineTest, List.any_eq_true]
      refine ⟨1, by decide, ?_⟩
      simp only [hashes, List.replicate, leadsWith, Bool.and_eq_true]
      exact ⟨by simp, by simpa using htt⟩
  | false =>
    by_contra hcon
    rw [Bool.not_eq_false] at hcon
    simp only [sectionLineTest, List.any_eq_true] at hcon
    obtain ⟨k, hk, hconj⟩ := hcon
    simp only [Bool.and_eq_true] at hconj
    have hk1 : 1 ≤ k := by
      have : 1 ≤ k ∧ k < 7 := by simpa using hk
      omega
    obtain ⟨hsh, htt⟩ := hashAux X k l hk1 hconj.1 hconj.2
    rw [hsh, htt] at hb
    simp at hb

/-- The matched-line test, stated as the spec reads it: for a
metacharacter-free section string, a line matches iff it starts with `#`
and the rest of the line contains the requested text case-insensitively
(for lines free of line-terminator characters, where `.*` can span the
whole line). -/
theorem sectionLineTest_char (X l : Str) (h : dotOk (l.drop 1) = true) :
    sectionLineTest X l = (startsHash l && containsCI X (l.drop 1)) := by
  rw [sectionLineTest_eq, tailTest_eq_containsCI X (l.drop 1) h]

theorem drop_app_self : ∀ (l t : List α), (l ++ t).drop l.length = t := by
  intro l t
  induction l with
  | nil => rfl
  | cons c l2 ih => simp [ih]

/-- For a metacharacter-free section string the RegExp compiles, so
`extractSection` always returns a string. -/
theorem extractSection_ok (content s : Str) (h : s.all literalChar = true) :
    ∃ r, extractSection content s = .ok r := by
  unfold extractSection
  rw [show compileSectionFragment s = .literal s from by
    simp [compileSectionFragment, h]]
  dsimp only
  cases hfi : firstIdx (fun l => sectionLineTest s l) (splitNL content) with
  | none => exact ⟨[], rfl⟩
  | some i => exact ⟨_, rfl⟩

/-!  ### Helper lemmas: the paragraph-range parser -/

theorem parseRange_digits (ds : Str) (h : ds.all isDigit = true) (hne : ds ≠ []) :
    parseRange ds = some (ds, none) := by
  unfold parseRange
  rw [takeWhile_of_all isDigit ds h]
  simp [hne]

theorem parseRange_closed (ds ds2 : Str) (h : ds.all isDigit = true) (hne : ds ≠ [])
    (h2 : ds2.all isDigit = true) :
    parseRange (ds ++ '-' :: ds2) = some (ds, some ds2) := by
  unfold parseRange
  have hminus : List.takeWhile isDigit ('-' :: ds2) = [] := by
    rw [List.takeWhile_cons, show isDigit '-' = false from by decide]
    simp
  rw [takeWhile_app isDigit ds ('-' :: ds2) h, hminus, List.append_nil]
  simp [hne, drop_app_self, h2]

/-!  ### Helper lemmas: cache state after `get` -/

theorem get_hit_state (c : SimpleCache) (url : Str) (now : Nat) (e : CacheEntry)
    (h : (SimpleCache.get c url now).1 = some e) :
    SimpleCache.get c url now = (some e, c) := by
  unfold SimpleCache.get at h ⊢
  cases hm : mapGet url c.entries with
  | none => rw [hm] at h; simp at h
  | some e2 =>
    rw [hm] at h
    by_cases hexp : c.ttlMs < now - e2.timestamp
    · simp [hexp] at h
    · simp [hexp] at h ⊢
      simp [h]

theorem get_state_cases (c : SimpleCache) (url : Str) (now : Nat) :
    (SimpleCache.get c url now).2 = c ∨
      (SimpleCache.get c url now).2 = { c with entries := mapDelete url c.entries } := by
  unfold SimpleCache.get
  cases hm : mapGet url c.entries with
  | none => left; rfl
  | some e =>
    by_cases hexp : c.ttlMs < now - e.timestamp
    · right; simp [hexp]
    · left; simp [hexp]

/-!  ### Claim theorems -/

/-- Claim C1 (amended): for every input text and every PaginationOptions
bundle whose section string, when present, is free of regular-expression
metacharacters, `applyPaginationOptions` returns a string and never
throws; unsatisfiable options yield explanatory placeholder strings.  (As
originally stated — for section strings with arbitrary characters — the
claim is false: the interpolated RegExp construction throws, see the
counterexample.) -/
theorem claim_C1 (content : Str) (o : PaginationOptions)
    (hsec : ∀ s, o.sectionOpt = some s → s.all literalChar = true) :
    ∃ r, applyPaginationOptions content o = .ok r := by
  by_cases hrh : o.readHeadings = true
  · refine ⟨extractHeadings content, ?_⟩
    simp [applyPaginationOptions, hrh]
  · cases hs : o.sectionOpt with
    | none =>
      refine ⟨paragraphStep content o, ?_⟩
      simp [applyPaginationOptions, hrh, hs]
    | some s =>
      by_cases hsemp : s = []
      · subst hsemp
        refine ⟨paragraphStep content o, ?_⟩
        simp [applyPaginationOptions, hrh, hs]
      · obtain ⟨r0, hr0⟩ := extractSection_ok content s (hsec s hs)
        by_cases hr0e : r0 = []
        · refine ⟨sectionNotFoundMsg s, ?_⟩
          simp [applyPaginationOptions, hrh, hs, hsemp, hr0, hr0e]
        · refine ⟨paragraphStep r0 o, ?_⟩
          simp [applyPaginationOptions, hrh, hs, hsemp, hr0, hr0e]

/-- Claim C1, counterexample to the original statement: with the section
string `"("` the pattern `^#{1,6}s*.*(.*$` does not compile and
`applyPaginationOptions` throws a SyntaxError instead of returning a
string. -/
theorem claim_C1_cex :
    applyPaginationOptions "x".data { sectionOpt := some "(".data } =
      .error regexCompileError := by decide

/-- Claim C1, witness. -/
theorem claim_C1_witness :
    ∃ r, applyPaginationOptions "# T\nbody".data { sectionOpt := some "T".data } = .ok r :=
  claim_C1 "# T\nbody".data { sectionOpt := some "T".data }
    (fun s hs => by cases hs; decide)

/-- Claim C2 (amended): every NON-EMPTY unparsable range string yields the
"invalid or out of bounds" placeholder; the empty range string `""` is
falsy in `if (options.paragraphRange)`, so the paragraph step is skipped
and the text is returned unchanged (not the placeholder the original
claim asserts). -/
theorem claim_C2 (content r : Str) (hne : r ≠ []) (hbad : parseRange r = none) :
    applyPaginationOptions content { paragraphRange := some r } =
      .ok (invalidRangeMsg r)
    ∧ applyPaginationOptions content { paragraphRange := some [] } = .ok content := by
  constructor
  · simp [applyPaginationOptions, paragraphStep, extractParagraphRange, hbad,
      hne, charStep]
  · simp [applyPaginationOptions, paragraphStep, charStep]

/-- Claim C2, counterexample to the original statement: the empty range
string on a three-paragraph document returns the unmodified text, not the
"invalid or out of bounds" placeholder. -/
theorem claim_C2_cex :
    applyPaginationOptions "p1\n\np2\n\np3".data { paragraphRange := some [] } =
      .ok "p1\n\np2\n\np3".data
    ∧ applyPaginationOptions "p1\n\np2\n\np3".data { paragraphRange := some [] } ≠
      .ok (invalidRangeMsg []) := by
  constructor
  · decide
  · decide

/-- Claim C2, witness. -/
theorem claim_C2_witness :
    applyPaginationOptions "p1\n\np2\n\np3".data { paragraphRange := some "abc".data } =
      .ok (invalidRangeMsg "abc".data) :=
  (claim_C2 "p1\n\np2\n\np3".data "abc".data (by decide) (by decide)).1

/-- Claim C4 (amended): `startChar ≥ length` yields the empty string;
otherwise with `maxLength` absent OR equal to `0` (which is falsy in the
source's `maxLength ? _ : _` test) the result runs to the end of the
text, and with positive `maxLength` it is the substring from
`max(0, startChar)` to `min(length, start + maxLength)`.  The character
window is the step applied by `applyPaginationOptions` for these options. -/
theorem claim_C4 (content : Str) (s : Nat) (m : Option Nat) :
    (content.length ≤ s → applyCharacterPagination content s m = [])
    ∧ (s < content.length → m = none →
        applyCharacterPagination content s m = content.drop s)
    ∧ (s < content.length → m = some 0 →
        applyCharacterPagination content s m = content.drop s)
    ∧ (∀ k, s < content.length → m = some k → 0 < k →
        applyCharacterPagination content s m =
          (content.take (min content.length (s + k))).drop s)
    ∧ applyPaginationOptions content { startChar := some s, maxLength := m } =
        .ok (applyCharacterPagination content s m) := by
  refine ⟨?_, ?_, ?_, ?_, ?_⟩
  · intro h
    simp [applyCharacterPagination, h]
  · intro h hm
    subst hm
    have h2 : ¬(content.length ≤ s) := by omega
    simp [applyCharacterPagination, h2]
  · intro h hm
    subst hm
    have h2 : ¬(content.length ≤ s) := by omega
    simp [applyCharacterPagination, h2]
  · intro k h hm hk
    subst hm
    have h2 : ¬(content.length ≤ s) := by omega
    have hk2 : ¬(k = 0) := by omega
    simp [applyCharacterPagination, h2, hk2]
  · simp [applyPaginationOptions, paragraphStep, charStep]

/-- Claim C4, counterexample to the original statement: with
`maxLength = 0` the code returns the remainder of the text, not the
empty substring `[start, start+0)` that the claim's formula gives. -/
theorem claim_C4_cex :
    applyCharacterPagination "abc".data 0 (some 0) = "abc".data
    ∧ applyCharacterPagination "abc".data 0 (some 0) ≠
      ("abc".data.take (min "abc".data.length (0 + 0))).drop 0 := by
  constructor
  · decide
  · decide

/-- Claim C4, witness. -/
theorem claim_C4_witness :
    applyCharacterPagination "abcde".data 7 (some 2) = []
    ∧ applyCharacterPagination "abcde".data 1 (some 2) =
      ("abcde".data.take (min "abcde".data.length (1 + 2))).drop 1 :=
  ⟨(claim_C4 "abcde".data 7 (some 2)).1 (by decide),
   (claim_C4 "abcde".data 1 (some 2)).2.2.2.1 2 (by decide) rfl (by decide)⟩

/-- Claim C9: when `readHeadings` is set, every other option is ignored
and the result is exactly the lines matching `/^#{1,6}\s/` in document
order (a sublist of the document's lines), or the fixed "No headings
found" message when there are none. -/
theorem claim_C9 (content : Str) (o : PaginationOptions) (h : o.readHeadings = true) :
    applyPaginationOptions content o = .ok (extractHeadings content)
    ∧ ((splitNL content).filter isHeadingLine = [] →
        extractHeadings content = noHeadingsMsg)
    ∧ ((splitNL content).filter isHeadingLine ≠ [] →
        extractHeadings content = joinNL ((splitNL content).filter isHeadingLine))
    ∧ ((splitNL content).filter isHeadingLine).Sublist (splitNL content) := by
  refine ⟨by simp [applyPaginationOptions, h], ?_, ?_, List.filter_sublist _⟩
  · intro he
    simp [extractHeadings, he]
  · intro he
    unfold extractHeadings
    rw [if_neg (by simpa using he)]

/-- Claim C9, witness: `readHeadings` with other options also set. -/
theorem claim_C9_witness :
    applyPaginationOptions "# A\nx".data
        { readHeadings := true, startChar := some 1, paragraphRange := some "9".data } =
      .ok (extractHeadings "# A\nx".data) :=
  (claim_C9 "# A\nx".data
    { readHeadings := true, startChar := some 1, paragraphRange := some "9".data } rfl).1

/-- Claim C10: heading extraction and section extraction classify lines
differently.  `"#Intro"` (no whitespace after `#`) and `"####### A"`
(seven `#`) are not reported as headings, yet the former starts a section
for `"intro"` and the latter for `"A"`; `"#Next"` terminates the
`"#Intro"` section while heading extraction reports no headings at all in
that text. -/
theorem claim_C10 :
    extractHeadings "#Intro\ntext\n#Next".data = noHeadingsMsg
    ∧ extractSection "#Intro\ntext\n#Next".data "intro".data = .ok "#Intro\ntext".data
    ∧ isHeadingLine "#Intro".data = false
    ∧ isHeadingLine "#Next".data = false
    ∧ startsHash "#Next".data = true
    ∧ hashCount "#Next".data ≤ hashCount "#Intro".data
    ∧ extractHeadings "####### A\nz\n# B".data = "# B".data
    ∧ extractSection "####### A\nz\n# B".data "A".data = .ok "####### A\nz".data
    ∧ isHeadingLine "####### A".data = false
    ∧ sectionLineTest "A".data "####### A".data = true := by decide

/-- Claim C6: paragraph-range extraction splits on blank-line separators,
discards paragraphs empty after trimming, and reads the range string as
`N` (exactly one paragraph), `N-` (to the end) or `N-M` (1-based
inclusive: paragraphs `N..M`); a start index before the first paragraph
(`N = 0`) or past the last yields the "invalid or out of bounds"
placeholder rather than a failure. -/
theorem claim_C6 (content : Str) (ds ds2 : Str) (hds : ds.all isDigit = true)
    (hne : ds ≠ []) (hds2 : ds2.all isDigit = true) :
    (∀ p ∈ paragraphsOf content, (trimJS p).isEmpty = false)
    ∧ paragraphsOf content =
        (splitBlank content).filter (fun p => !(trimJS p).isEmpty)
    ∧ (1 ≤ digitsToNat ds → digitsToNat ds ≤ (paragraphsOf content).length →
        extractParagraphRange content ds =
          (paragraphsOf content).getD (digitsToNat ds - 1) []
        ∧ extractParagraphRange content (ds ++ ['-']) =
            joinBlank ((paragraphsOf content).drop (digitsToNat ds - 1))
        ∧ (ds2 ≠ [] → extractParagraphRange content (ds ++ '-' :: ds2) =
            joinBlank (((paragraphsOf content).take (digitsToNat ds2)).drop
              (digitsToNat ds - 1))))
    ∧ ((digitsToNat ds = 0 ∨ (paragraphsOf content).length < digitsToNat ds) →
        applyPaginationOptions content { paragraphRange := some ds } =
          .ok (invalidRangeMsg ds)) := by
  refine ⟨?_, rfl, ?_, ?_⟩
  · intro p hp
    unfold paragraphsOf at hp
    have := List.of_mem_filter hp
    simpa using this
  · intro h1 h2
    have hz : ¬(digitsToNat ds = 0) := by omega
    have hb : ¬((paragraphsOf content).length ≤ digitsToNat ds - 1) := by omega
    refine ⟨?_, ?_, ?_⟩
    · unfold extractParagraphRange
      rw [parseRange_digits ds hds hne]
      simp [hz, hb]
    · unfold extractParagraphRange
      rw [parseRange_closed ds [] hds hne (by simp)]
      simp [hz, hb]
    · intro hne2
      unfold extractParagraphRange
      rw [parseRange_closed ds ds2 hds hne hds2]
      cases ds2 with
      | nil => exact absurd rfl hne2
      | cons d dtl => simp [hz, hb]
  · intro hob
    have hempty : extractParagraphRange content ds = [] := by
      unfold extractParagraphRange
      rw [parseRange_digits ds hds hne]
      by_cases hz : digitsToNat ds = 0
      · simp [hz]
      · have hb : (paragraphsOf content).length ≤ digitsToNat ds - 1 := by omega
        simp [hz, hb]
    simp [applyPaginationOptions, paragraphStep, hne, hempty, charStep]

/-- Claim C6, witness. -/
theorem claim_C6_witness :
    extractParagraphRange "p1\n\np2\n\np3".data "2".data =
      (paragraphsOf "p1\n\np2\n\np3".data).getD (digitsToNat "2".data - 1) []
    ∧ extractParagraphRange "p1\n\np2\n\np3".data ("2".data ++ ['-']) =
      joinBlank ((paragraphsOf "p1\n\np2\n\np3".data).drop (digitsToNat "2".data - 1))
    ∧ applyPaginationOptions "p1\n\np2\n\np3".data { paragraphRange := some "4".data } =
      .ok (invalidRangeMsg "4".data) := by
  have h := claim_C6 "p1\n\np2\n\np3".data "2".data "3".data (by decide) (by decide)
    (by decide)
  have h4 := claim_C6 "p1\n\np2\n\np3".data "4".data "3".data (by decide) (by decide)
    (by decide)
  exact ⟨(h.2.2.1 (by decide) (by decide)).1, (h.2.2.1 (by decide) (by decide)).2.1,
    h4.2.2.2 (by decide)⟩

/-- Claim C7: `SimpleCache.get(url)` returns the stored entry exactly when
one is present with age at most the TTL; otherwise it returns absent, and
when the present entry is expired the same call evicts it (and touches no
other key). -/
theorem claim_C7 (c : SimpleCache) (url : Str) (now : Nat) :
    (∀ e, (SimpleCache.get c url now).1 = some e ↔
        (mapGet url c.entries = some e ∧ now - e.timestamp ≤ c.ttlMs))
    ∧ (mapGet url c.entries = none → SimpleCache.get c url now = (none, c))
    ∧ (∀ e, mapGet url c.entries = some e → now - e.timestamp ≤ c.ttlMs →
        SimpleCache.get c url now = (some e, c))
    ∧ (∀ e, mapGet url c.entries = some e → c.ttlMs < now - e.timestamp →
        (SimpleCache.get c url now).1 = none
        ∧ mapGet url (SimpleCache.get c url now).2.entries = none
        ∧ ∀ u, u ≠ url →
            mapGet u (SimpleCache.get c url now).2.entries = mapGet u c.entries) := by
  refine ⟨?_, ?_, ?_, ?_⟩
  · intro e
    unfold SimpleCache.get
    cases hm : mapGet url c.entries with
    | none => simp
    | some e2 =>
      dsimp only
      by_cases hexp : c.ttlMs < now - e2.timestamp
      · rw [if_pos hexp]
        constructor
        · intro hh
          exact absurd hh (by simp)
        · rintro ⟨he, hle⟩
          injection he with he
          subst he
          omega
      · rw [if_neg hexp]
        constructor
        · intro hh
          injection hh with hh
          subst hh
          exact ⟨rfl, by omega⟩
        · rintro ⟨he, -⟩
          exact he.symm ▸ rfl
  · intro hm
    unfold SimpleCache.get
    rw [hm]
  · intro e hm hle
    unfold SimpleCache.get
    rw [hm]
    dsimp only
    rw [if_neg (by omega)]
  · intro e hm hexp
    have hst : SimpleCache.get c url now =
        (none, { c with entries := mapDelete url c.entries }) := by
      unfold SimpleCache.get
      rw [hm]
      dsimp only
      rw [if_pos hexp]
    rw [hst]
    refine ⟨rfl, ?_, ?_⟩
    · simp [mapGet_mapDelete]
    · intro u hu
      simp [mapGet_mapDelete, hu]

/-- Claim C7, witness: an entry stamped at time 0 with TTL 5 queried at
time 100 is reported absent and evicted by the same call. -/
theorem claim_C7_witness :
    (SimpleCache.get ⟨[("u".data, ⟨"h".data, "m".data, 0⟩)], 5⟩ "u".data 100).1 = none
    ∧ mapGet "u".data
        (SimpleCache.get ⟨[("u".data, ⟨"h".data, "m".data, 0⟩)], 5⟩ "u".data 100).2.entries =
      none := by
  have h := (claim_C7 ⟨[("u".data, ⟨"h".data, "m".data, 0⟩)], 5⟩ "u".data 100).2.2.2
    ⟨"h".data, "m".data, 0⟩ (by decide) (by decide)
  exact ⟨h.1, h.2.1⟩

/-- Claim C5: section extraction is level-aware.  When the first matching
line has index `i`, the returned section is that line followed by exactly
the subsequent lines up to — but excluding — the first line whose leading
`#` count is positive and at most the matched line's count (all following
lines when there is none), so a subsection heading does not end its parent
section; a line matches the section test iff it starts with `#` and the
rest of the line contains the requested text case-insensitively; and the
spec's concrete example evaluates as stated. -/
theorem claim_C5 :
    (∀ (content X : Str) (i : Nat), X.all literalChar = true →
      firstIdx (fun l => sectionLineTest X l) (splitNL content) = some i →
      extractSection content X = .ok (joinNL
        ((splitNL content).getD i [] ::
          ((splitNL content).drop (i + 1)).takeWhile
            (fun l => !(startsHash l &&
              decide (hashCount l ≤ hashCount ((splitNL content).getD i [])))))))
    ∧ (∀ X l, dotOk (l.drop 1) = true →
        sectionLineTest X l = (startsHash l && containsCI X (l.drop 1)))
    ∧ extractSection "# A\n## B\ntext1\n# C\ntext2".data "A".data =
        .ok "# A\n## B\ntext1".data := by
  refine ⟨?_, sectionLineTest_char, by decide⟩
  intro content X i hlit hfi
  have hlen : i < (splitNL content).length := firstIdx_lt_length hfi
  unfold extractSection
  rw [show compileSectionFragment X = .literal X from by
    simp [compileSectionFragment, hlit]]
  dsimp only
  rw [hfi]
  dsimp only
  cases hj : firstIdx
      (fun l => startsHash l && decide (hashCount l ≤ hashCount ((splitNL content).getD i [])))
      ((splitNL content).drop (i + 1)) with
  | some j =>
    dsimp only
    have htk := take_firstIdx
      (fun l => startsHash l && decide (hashCount l ≤ hashCount ((splitNL content).getD i [])))
      ((splitNL content).drop (i + 1))
    rw [hj] at htk
    simp only [Option.getD_some] at htk
    rw [show i + 1 + j = i + (1 + j) from by omega,
      drop_take_eq i (1 + j) (splitNL content),
      drop_eq_getD_cons (splitNL content) i [] hlen,
      show 1 + j = j + 1 from by omega,
      List.take_succ_cons, htk]
  | none =>
    dsimp only
    have htk := take_firstIdx
      (fun l => startsHash l && decide (hashCount l ≤ hashCount ((splitNL content).getD i [])))
      ((splitNL content).drop (i + 1))
    rw [hj] at htk
    simp only [Option.getD_none, List.take_length] at htk
    rw [List.take_length,
      drop_eq_getD_cons (splitNL content) i [] hlen, ← htk]

/-- Claim C5, witness: the general characterization applied to the spec's
concrete document at matched index 0. -/
theorem claim_C5_witness :
    extractSection "# A\n## B\ntext1\n# C\ntext2".data "A".data =
      .ok "# A\n## B\ntext1".data := by
  have h := claim_C5.1 "# A\n## B\ntext1\n# C\ntext2".data "A".data 0
    (by decide) (by decide)
  exact h.trans (by decide)

/-- Claim C3: on the cache-miss path with a valid URL, a fetch rejection
whose error is the cancellation (`AbortError`, the armed timeout firing)
makes `fetchAndConvertToMarkdown` fail with the timeout-classified error,
while any other fetch rejection (a transport-level failure) makes it fail
with the network-classified error; the two error values are distinct. -/
theorem claim_C3 (env : Env) (cache : SimpleCache) (url : Str) (t : Nat)
    (o : PaginationOptions) (cMiss : SimpleCache) (e : JsErr)
    (hmiss : SimpleCache.get cache url env.now = (none, cMiss))
    (hurl : env.urlParses = true) (hf : env.fetchResult = .error e) :
    (e.name = abortName →
      fetchAndConvertToMarkdown env cache url t o =
        (.error (createTimeoutError t url), cMiss))
    ∧ (e.name ≠ abortName →
      fetchAndConvertToMarkdown env cache url t o =
        (.error { name := mcpErrName, kind := .network }, cMiss))
    ∧ (createTimeoutError t url).kind ≠ ErrKind.network := by
  have hbase : fetchAndConvertToMarkdown env cache url t o =
      (.error (classifyCaught (createNetworkError e url) t url), cMiss) := by
    unfold fetchAndConvertToMarkdown
    rw [hmiss]
    dsimp only
    rw [hurl]
    simp only [Bool.not_true, Bool.false_eq_true, if_false]
    unfold tryBody
    rw [hf]
  refine ⟨?_, ?_, by simp [createTimeoutError]⟩
  · intro hab
    rw [hbase]
    unfold createNetworkError classifyCaught
    rw [if_pos hab, if_pos hab]
  · intro hab
    rw [hbase]
    unfold createNetworkError classifyCaught
    rw [if_neg hab, if_neg (show ¬(mcpErrName = abortName) from by decide)]
    rw [if_pos (show mcpErrName = mcpErrName from rfl)]

/-- Claim C3, witness: a concrete run whose fetch rejects with the
cancellation error fails with the timeout-classified error. -/
theorem claim_C3_witness :
    fetchAndConvertToMarkdown
        ⟨true, .error ⟨abortName, .external⟩, fun _ => .ok [], 0⟩
        ⟨[], 5⟩ "u".data 10 {} =
      (.error (createTimeoutError 10 "u".data), ⟨[], 5⟩) := by
  have h := claim_C3 ⟨true, .error ⟨abortName, .external⟩, fun _ => .ok [], 0⟩
    ⟨[], 5⟩ "u".data 10 {} ⟨[], 5⟩ ⟨abortName, .external⟩ rfl rfl rfl
  exact h.1 rfl

/-- Claim C8: a conversion that succeeds but yields whitespace-only text
makes the pipeline return the descriptive warning string as a SUCCESS
(not an error) and leave the cache exactly as the cache check left it;
and after any run of the pipeline, every cache entry either predates the
call or holds converted text that is non-empty after trimming. -/
theorem claim_C8 (env : Env) (cache : SimpleCache) (url : Str) (t : Nat)
    (o : PaginationOptions) :
    (∀ (cMiss : SimpleCache) (resp : HttpResponse) (html md : Str),
      SimpleCache.get cache url env.now = (none, cMiss) →
      env.urlParses = true →
      env.fetchResult = .ok resp →
      resp.ok = true →
      resp.body = .ok html →
      (trimJS html).isEmpty = false →
      env.translate html = .ok md →
      (trimJS md).isEmpty = true →
      fetchAndConvertToMarkdown env cache url t o =
        (.ok (createEmptyContentWarning url html.length html), cMiss))
    ∧ (∀ (u : Str) (e2 : CacheEntry),
        mapGet u (fetchAndConvertToMarkdown env cache url t o).2.entries = some e2 →
        mapGet u cache.entries = some e2 ∨
          (trimJS e2.markdownContent).isEmpty = false) := by
  constructor
  · intro cMiss resp html md hmiss hurl hf hok hb hhtml ht hmd
    unfold fetchAndConvertToMarkdown
    rw [hmiss]
    dsimp only
    rw [hurl]
    simp only [Bool.not_true, Bool.false_eq_true, if_false]
    unfold tryBody
    rw [hf]
    dsimp only
    rw [hok]
    simp only [Bool.not_true, Bool.false_eq_true, if_false]
    rw [hb]
    dsimp only
    rw [hhtml]
    simp only [Bool.false_eq_true, if_false]
    rw [ht]
    dsimp only
    rw [hmd]
    simp only [if_true]
  · intro u e2 hpost
    cases hget : SimpleCache.get cache url env.now with
    | mk r cAfter =>
      have hAfterGet : ∀ v, mapGet u cAfter.entries = some v →
          mapGet u cache.entries = some v := by
        intro v hv
        have hsc := get_state_cases cache url env.now
        rw [hget] at hsc
        simp only at hsc
        cases hsc with
        | inl h => rw [h] at hv; exact hv
        | inr h =>
          rw [h] at hv
          rw [mapGet_mapDelete] at hv
          by_cases hu : u = url
          · simp [hu] at hv
          · simpa [hu] using hv
      cases r with
      | some entry =>
        have hc : SimpleCache.get cache url env.now = (some entry, cache) :=
          get_hit_state cache url env.now entry (by rw [hget])
        have hca : cAfter = cache := by
          rw [hget] at hc
          injection hc with h1 h2
        unfold fetchAndConvertToMarkdown at hpost
        rw [hget] at hpost
        dsimp only at hpost
        rw [hca] at hpost
        exact Or.inl hpost
      | none =>
        unfold fetchAndConvertToMarkdown at hpost
        rw [hget] at hpost
        dsimp only at hpost
        by_cases hurl : env.urlParses = true
        case neg =>
          have hu2 : env.urlParses = false := by
            revert hurl
            cases env.urlParses <;> simp
          rw [hu2] at hpost
          simp only [Bool.not_false, if_true] at hpost
          exact Or.inl (hAfterGet e2 hpost)
        case pos =>
          rw [hurl] at hpost
          simp only [Bool.not_true, Bool.false_eq_true, if_false] at hpost
          unfold tryBody at hpost
          cases hf : env.fetchResult with
          | error e3 =>
            rw [hf] at hpost
            dsimp only at hpost
            exact Or.inl (hAfterGet e2 hpost)
          | ok resp =>
            rw [hf] at hpost
            dsimp only at hpost
            by_cases hok : resp.ok = true
            case neg =>
              have hok2 : resp.ok = false := by
                revert hok
                cases resp.ok <;> simp
              rw [hok2] at hpost
              simp only [Bool.not_false, if_true] at hpost
              exact Or.inl (hAfterGet e2 hpost)
            case pos =>
              rw [hok] at hpost
              simp only [Bool.not_true, Bool.false_eq_true, if_false] at hpost
              cases hb : resp.body with
              | error e4 =>
                rw [hb] at hpost
                dsimp only at hpost
                exact Or.inl (hAfterGet e2 hpost)
              | ok html =>
                rw [hb] at hpost
                dsimp only at hpost
                by_cases hhe : (trimJS html).isEmpty = true
                case pos =>
                  rw [if_pos hhe] at hpost
                  exact Or.inl (hAfterGet e2 hpost)
                case neg =>
                  rw [if_neg hhe] at hpost
                  cases htr : env.translate html with
                  | error e5 =>
                    rw [htr] at hpost
                    dsimp only at hpost
                    exact Or.inl (hAfterGet e2 hpost)
                  | ok md =>
                    rw [htr] at hpost
                    dsimp only at hpost
                    by_cases hme : (trimJS md).isEmpty = true
                    case pos =>
                      rw [if_pos hme] at hpost
                      exact Or.inl (hAfterGet e2 hpost)
                    case neg =>
                      rw [if_neg hme] at hpost
                      cases hap : applyPaginationOptions md o with
                      | ok rr =>
                        rw [hap] at hpost
                        dsimp only [SimpleCache.set] at hpost
                        rw [mapGet_mapSet] at hpost
                        by_cases hu : u = url
                        · rw [if_pos hu] at hpost
                          injection hpost with hpost
                          right
                          rw [← hpost]
                          revert hme
                          cases (trimJS md).isEmpty <;> simp
                        · rw [if_neg hu] at hpost
                          exact Or.inl (hAfterGet e2 hpost)
                      | error ee =>
                        rw [hap] at hpost
                        dsimp only [SimpleCache.set] at hpost
                        rw [mapGet_mapSet] at hpost
                        by_cases hu : u = url
                        · rw [if_pos hu] at hpost
                          injection hpost with hpost
                          right
                          rw [← hpost]
                          revert hme
                          cases (trimJS md).isEmpty <;> simp
                        · rw [if_neg hu] at hpost
                          exact Or.inl (hAfterGet e2 hpost)

/-- Claim C8, witness: a concrete run whose conversion yields whitespace
only returns the warning as a success and stores nothing. -/
theorem claim_C8_witness :
    fetchAndConvertToMarkdown
        ⟨true, .ok ⟨true, 200, "OK".data, .ok "h".data⟩, fun _ => .ok " ".data, 0⟩
        ⟨[], 5⟩ "u".data 10 {} =
      (.ok (createEmptyContentWarning "u".data "h".data.length "h".data), ⟨[], 5⟩) :=
  (claim_C8 ⟨true, .ok ⟨true, 200, "OK".data, .ok "h".data⟩, fun _ => .ok " ".data, 0⟩
      ⟨[], 5⟩ "u".data 10 {}).1
    ⟨[], 5⟩ ⟨true, 200, "OK".data, .ok "h".data⟩ "h".data " ".data
    rfl rfl rfl rfl rfl (by decide) rfl (by decide)
